import Mathlib

/-!
Verification development for the Human-Proximity-Attention-Tracker pipeline.

The definitions below are a shallow embedding of the Python sources:
* `is_facing_camera`      — src/main.py, lines 71-83 (frontal-pose classifier);
* `FaceMemory.get_id`     — src/main.py, lines 41-66 (identity memory);
* `processDet`/`processFrame`/`runModel`
                          — the per-frame tracking loop of `main` in
                            src/main.py, lines 145-214 (frontal filter, crop
                            guard, 10-frame re-identification cadence via the
                            shared `fid` variable, per-id bookkeeping, stale
                            eviction);
* `mergedReport`          — src/main.py, lines 236-241 (`save_report`'s
                            `all_faces` merge: history first, active second);
* `greedy_assignment`     — src/Old_code/tracker.py, lines 69-98
                            (`FaceTracker._greedy_assignment`);
* `AudioPlayer.manage`    — src/audio_player.py, lines 93-112.

Machine floats are modelled by `ℚ`; Python dicts (insertion-ordered, unique
keys) by association lists with `setA`/`lookupA`/`delete`-via-`filter`.
The unbound-local-variable error that `main` can raise for `fid` is modelled
by `Except Unit`.
-/

/-- A 2-D landmark point (one row of the 5-point landmark array). -/
structure Pt where
  x : ℚ
  y : ℚ
deriving DecidableEq

/-- Python's `abs` on a rational, written so that it evaluates by kernel
reduction. -/
def absQ (q : ℚ) : ℚ :=
  if q < 0 then -q else q

/-- Frontal-pose classifier, src/main.py lines 71-83.
`le, re, nose, lm, rm = landmarks`; yaw ratio is guarded (`1` when the eye
distance is zero), the pitch denominator gets `+ 1e-6`. -/
def is_facing_camera (le re nose lm rm : Pt) : Bool :=
  let eye_mid_x := (le.x + re.x) / 2
  let nose_offset := absQ (nose.x - eye_mid_x)
  let eye_dist := absQ (le.x - re.x)
  let yaw_ratio := if eye_dist > 0 then nose_offset / eye_dist else 1
  let eye_mid_y := (le.y + re.y) / 2
  let mouth_mid_y := (lm.y + rm.y) / 2
  let pitch_ratio := absQ (nose.y - eye_mid_y) / (mouth_mid_y - eye_mid_y + 1/1000000)
  decide (yaw_ratio < 1/4 ∧ pitch_ratio < 7/10)

/-- The spec's yaw formula: `|nose.x − midpoint(leftEye,rightEye).x| /
|leftEye.x − rightEye.x|`, treated as `1` when the eye distance is zero. -/
def yawRatio (le re nose : Pt) : ℚ :=
  if absQ (le.x - re.x) > 0 then
    absQ (nose.x - (le.x + re.x) / 2) / absQ (le.x - re.x)
  else 1

/-- The spec's pitch formula: `|nose.y − eyeMid.y| / (mouthMid.y − eyeMid.y + ε)`
with `ε = 1e-6` as in the code. -/
def pitchRatio (le re nose lm rm : Pt) : ℚ :=
  absQ (nose.y - (le.y + re.y) / 2)
    / ((lm.y + rm.y) / 2 - (le.y + re.y) / 2 + 1/1000000)

/-- Dot product of two embedding vectors; `FaceMemory.cosine` is `np.dot`
(src/main.py line 47-48), embeddings being unit-norm by construction. -/
def cosine : List ℚ → List ℚ → ℚ
  | a :: as_, b :: bs => a * b + cosine as_ bs
  | _, _ => 0

/-- Identity memory, src/main.py lines 41-45: `db` is the insertion-ordered
`id → embedding` dict, `next_id` the mint counter, `thresh` the similarity
threshold (default 0.45). -/
structure FaceMemory where
  db : List (Nat × List ℚ)
  next_id : Nat
  thresh : ℚ
deriving DecidableEq

/-- A freshly constructed `FaceMemory(similarity_thresh)`. -/
def FaceMemory.init (thresh : ℚ) : FaceMemory :=
  ⟨[], 1, thresh⟩

/-- The `best_id`/`best_sim` scan of `get_id` (src/main.py lines 51-58):
fold over the stored embeddings in insertion order, starting from
`(None, 0)`, updating on strict improvement. -/
def bestMatch (e : List ℚ) (db : List (Nat × List ℚ)) : Option Nat × ℚ :=
  db.foldl
    (fun acc p => if cosine e p.2 > acc.2 then (some p.1, cosine e p.2) else acc)
    (none, 0)

/-- Maximum stored similarity, floored at the scan's initial `best_sim = 0`. -/
def simsMax (e : List ℚ) (db : List (Nat × List ℚ)) : ℚ :=
  db.foldl (fun acc p => max acc (cosine e p.2)) 0

/-- Model of `FaceMemory.get_id`, src/main.py lines 50-66: return the best stored id
if its similarity strictly exceeds the threshold, otherwise mint
`next_id`, store the embedding and bump the counter. -/
def FaceMemory.get_id (m : FaceMemory) (e : List ℚ) : Nat × FaceMemory :=
  let b := bestMatch e m.db
  if m.thresh < b.2 then
    (b.1.getD 0, m)
  else
    (m.next_id, ⟨m.db ++ [(m.next_id, e)], m.next_id + 1, m.thresh⟩)

/-- Memories reachable from a fresh `FaceMemory` by `get_id` calls. -/
inductive FaceMemory.Reachable : FaceMemory → Prop
  | init (t : ℚ) : FaceMemory.Reachable (FaceMemory.init t)
  | step (m : FaceMemory) (e : List ℚ) :
      FaceMemory.Reachable m → FaceMemory.Reachable (m.get_id e).2

/-! ### Association lists modelling Python dicts -/

/-- Python dict assignment `d[k] = v`: overwrite in place if the key is
present, otherwise append (insertion order preserved). -/
def setA {α : Type} : List (Nat × α) → Nat → α → List (Nat × α)
  | [], k, v => [(k, v)]
  | (k', v') :: rest, k, v =>
      if k' = k then (k, v) :: rest else (k', v') :: setA rest k v

/-- Python dict read `d.get(k)` / `d[k]`. -/
def lookupA {α : Type} : List (Nat × α) → Nat → Option α
  | [], _ => none
  | (k', v) :: rest, k => if k' = k then some v else lookupA rest k

/-- The key list of an association list. -/
def keysA {α : Type} (l : List (Nat × α)) : List Nat :=
  l.map Prod.fst

/-- Python `base.update(upd)`: fold dict assignment of `upd`'s entries, in
order, over `base`. -/
def updateA {α : Type} (base upd : List (Nat × α)) : List (Nat × α) :=
  upd.foldl (fun acc p => setA acc p.1 p.2) base

/-! ### The SCRFD pipeline loop (src/main.py, `main`, lines 145-214) -/

/-- One tracked entity: the per-id record dict created at
src/main.py lines 172-178 and mutated at lines 180-183. -/
structure Entity where
  attention_time : ℚ
  total_time : ℚ
  start_time : ℚ
  end_time : ℚ
  last_seen : ℚ
deriving DecidableEq

/-- One detection of the current frame: its five landmarks (consumed by
`is_facing_camera`), whether the face crop is nonempty (line 161-163), and
the embedding the ArcFace collaborator returns for the crop (line 166). -/
structure Det where
  le : Pt
  re : Pt
  nose : Pt
  lm : Pt
  rm : Pt
  crop_ok : Bool
  emb : List ℚ
deriving DecidableEq

/-- The mutable state of `main`'s loop: identity memory, the Python local
variable `fid` (which survives across detections AND frames; `none` models
"not yet assigned"), the two id-keyed tables, `frame_count`, and
`name_error`, which records that the Python code raised `NameError` by
reading `fid` before any assignment — from that point on the loop is dead
and the state frozen, exactly as an uncaught exception leaves it for the
`finally` block. -/
structure LoopState where
  mem : FaceMemory
  fid : Option Nat
  face_tracking : List (Nat × Entity)
  face_history : List (Nat × Entity)
  frame_count : Nat
  name_error : Bool
deriving DecidableEq

/-- Model of `config.STALE_FACE_TIMEOUT` (src/config.py line 17). -/
def STALE_FACE_TIMEOUT : ℚ := 3

/-- src/main.py lines 165-167: on every 10th processed frame the embedding
is computed and resolved through `memory.get_id`; on all other frames the
Python variable `fid` simply keeps its previous value. -/
def resolveId (frame_count : Nat) (st : LoopState) (d : Det) :
    Option Nat × FaceMemory :=
  if frame_count % 10 = 0 then
    ((st.mem.get_id d.emb).1, (st.mem.get_id d.emb).2)
  else (st.fid, st.mem)

/-- Body of the `for (x1,y1,x2,y2), lm in zip(boxes, landmarks)` loop,
src/main.py lines 156-183: skip non-frontal landmarks (line 158-159), skip
empty crops (line 161-163), resolve `fid` (lines 165-167; reading an
unassigned `fid` raises `NameError`, which sets `name_error` and freezes
the state), then create the entry if absent (lines 171-178) and update it
(lines 180-183). -/
def processDet (frame_count : Nat) (curr_time elapsed dt : ℚ)
    (st : LoopState) (d : Det) : LoopState :=
  if st.name_error then st
  else if is_facing_camera d.le d.re d.nose d.lm d.rm = false then st
  else if d.crop_ok = false then st
  else
    match (resolveId frame_count st d).1 with
    | none => { st with name_error := true }
    | some fid =>
      let e0 : Entity :=
        (lookupA st.face_tracking fid).getD ⟨0, 0, elapsed, elapsed, curr_time⟩
      { st with
        mem := (resolveId frame_count st d).2
        fid := some fid
        face_tracking :=
          setA st.face_tracking fid
            ⟨e0.attention_time + dt, e0.total_time + dt,
             e0.start_time, elapsed, curr_time⟩ }

/-- Fold of `processDet` over the frame's detections, left to right. -/
def processDets (frame_count : Nat) (curr_time elapsed dt : ℚ)
    (st : LoopState) (dets : List Det) : LoopState :=
  dets.foldl (processDet frame_count curr_time elapsed dt) st

/-- The staleness test of src/main.py lines 191-193. -/
def staleP (curr_time : ℚ) (p : Nat × Entity) : Bool :=
  decide (curr_time - p.2.last_seen > STALE_FACE_TIMEOUT)

/-- src/main.py lines 191-197: move every stale entry into `face_history`
and delete it from `face_tracking`. -/
def cleanup_stale (curr_time : ℚ) (st : LoopState) : LoopState :=
  { st with
    face_history :=
      updateA st.face_history (st.face_tracking.filter (staleP curr_time))
    face_tracking :=
      st.face_tracking.filter (fun p => ! staleP curr_time p) }

/-- One loop iteration: process the frame's detections, evict stale
entities, bump `frame_count` (src/main.py line 214). When the `NameError`
fires, the rest of the iteration does not run. -/
def processFrame (curr_time elapsed dt : ℚ) (dets : List Det)
    (st : LoopState) : LoopState :=
  let st1 := processDets st.frame_count curr_time elapsed dt st dets
  if st1.name_error then st1
  else { cleanup_stale curr_time st1 with frame_count := st1.frame_count + 1 }

/-- The per-frame inputs the loop consumes: the wall-clock `curr_time`, the
session-relative `elapsed`, the frame delta `dt`, and the detections that
the SCRFD collaborator returned. -/
structure Frame where
  curr_time : ℚ
  elapsed : ℚ
  dt : ℚ
  dets : List Det
deriving DecidableEq

/-- The loop's state at startup: fresh memory with the default 0.45
threshold, `fid` unbound, both tables empty, `frame_count = 0`. -/
def initState : LoopState :=
  ⟨FaceMemory.init (45/100), none, [], [], 0, false⟩

/-- Run the loop over a list of frames. -/
def runModel (st : LoopState) (fs : List Frame) : LoopState :=
  fs.foldl (fun s f => processFrame f.curr_time f.elapsed f.dt f.dets s) st

/-- Model of `save_report`'s `all_faces` merge (src/main.py lines 239-241):
`all_faces.update(face_history)` then `all_faces.update(face_tracking)`,
so an id present in both tables reports its active entry. -/
def mergedReport (st : LoopState) : List (Nat × Entity) :=
  updateA (updateA [] st.face_history) st.face_tracking

/-- Well-formedness of a loop state: both dict models have unique keys and
every recorded entity satisfies `attention_time ≤ total_time`. -/
def StInv (st : LoopState) : Prop :=
  (keysA st.face_tracking).Nodup ∧ (keysA st.face_history).Nodup ∧
  (∀ p ∈ st.face_tracking, p.2.attention_time ≤ p.2.total_time) ∧
  (∀ p ∈ st.face_history, p.2.attention_time ≤ p.2.total_time)

/-- A detection whose landmarks pass the frontal test (yaw 0, pitch 1/2). -/
def detFrontal (emb : List ℚ) : Det :=
  ⟨⟨0, 10⟩, ⟨4, 10⟩, ⟨2, 13⟩, ⟨0, 16⟩, ⟨4, 16⟩, true, emb⟩

/-- A detection whose landmarks fail the frontal test (yaw 1/2). -/
def detNonFrontal (emb : List ℚ) : Det :=
  ⟨⟨0, 10⟩, ⟨4, 10⟩, ⟨4, 13⟩, ⟨0, 16⟩, ⟨4, 16⟩, true, emb⟩

/-- Active table after a run from the initial state. -/
def trackingAfter (fs : List Frame) : List (Nat × Entity) :=
  (runModel initState fs).face_tracking

/-- History table after a run from the initial state. -/
def historyAfter (fs : List Frame) : List (Nat × Entity) :=
  (runModel initState fs).face_history

/-- Final merged report after a run from the initial state. -/
def mergedAfter (fs : List Frame) : List (Nat × Entity) :=
  mergedReport (runModel initState fs)

/-- Whether a run raises the `fid` `NameError`. -/
def runFails (fs : List Frame) : Bool :=
  (runModel initState fs).name_error

/-- A run in which one person is seen for 3 seconds (frames 0-2), leaves
long enough to be evicted (frame 3), and re-appears on the next
re-identification frame (frame 10), where `get_id` resolves the same id 1.
The trace is consistent with `main`'s bookkeeping: with
`campaign_start_time = 1`, every frame has `elapsed = curr_time - 1` and
`dt = curr_time - prev_time` (0 on the first frame). -/
def reidFrames : List Frame :=
  [⟨1, 0, 0, [detFrontal [1, 0]]⟩,
   ⟨2, 1, 1, [detFrontal [1, 0]]⟩,
   ⟨4, 3, 2, [detFrontal [1, 0]]⟩,
   ⟨8, 7, 4, []⟩,
   ⟨8, 7, 0, []⟩, ⟨8, 7, 0, []⟩, ⟨8, 7, 0, []⟩,
   ⟨8, 7, 0, []⟩, ⟨8, 7, 0, []⟩, ⟨8, 7, 0, []⟩,
   ⟨17/2, 15/2, 1/2, [detFrontal [1, 0]]⟩]

/-- A run in which the person is frontal on frame 0 and still present but
non-frontal on frame 1. -/
def nonFrontalFrames : List Frame :=
  [⟨1, 0, 0, [detFrontal [1, 0]]⟩,
   ⟨2, 1, 1, [detNonFrontal [1, 0]]⟩]

/-- Two distinct people (orthogonal embeddings) on frames 0 and 1; frame 1
is not a re-identification frame. -/
def twoPersonFrames : List Frame :=
  [⟨1, 0, 0, [detFrontal [1, 0], detFrontal [0, 1]]⟩,
   ⟨2, 1, 1, [detFrontal [1, 0], detFrontal [0, 1]]⟩]

/-- No detections on frame 0; the first qualifying detection arrives on
frame 1, which is not a re-identification frame. -/
def lateFirstFaceFrames : List Frame :=
  [⟨1, 0, 0, []⟩,
   ⟨2, 1, 1, [detFrontal [1, 0]]⟩]

/-- A one-entity active state on a non-re-identification frame
(`frame_count = 1`, `fid` bound to 1), used as a concrete update input. -/
def c2WitState : LoopState :=
  ⟨FaceMemory.init (45/100), some 1, [(1, ⟨0, 0, 0, 0, 1⟩)], [], 1, false⟩

/-- A one-entity active state whose entity was last seen at time 5. -/
def c8WitState : LoopState :=
  ⟨FaceMemory.init (45/100), none, [(1, ⟨0, 0, 0, 0, 5⟩)], [], 0, false⟩

/-- A state in which id 1 was evicted to history (2s attention, 3s
presence) and the identity memory still holds its embedding; the active
table is empty and the next frame re-identifies the person. -/
def c10WitState : LoopState :=
  ⟨⟨[(1, [1, 0])], 2, 45/100⟩, none, [], [(1, ⟨2, 3, 0, 1, 1⟩)], 0, false⟩

/-! ### The old-pipeline greedy matcher (src/Old_code/tracker.py) -/

/-- A detection as `FaceTracker` consumes it: `rect = (x, y, w, h)` and
`center = (cx, cy)`. -/
structure TDet where
  x : ℚ
  y : ℚ
  w : ℚ
  h : ℚ
  cx : ℚ
  cy : ℚ
deriving DecidableEq

/-- The adaptive match gate of `_greedy_assignment`
(src/Old_code/tracker.py lines 89-91): `max(50, max(w, h) * 0.6)`. -/
def matchThreshold (d : TDet) : ℚ :=
  max 50 (max d.w d.h * (6/10))

/-- Insert one `(distance, currIdx, prevId)` triple into a list sorted
ascending by distance. -/
def insertPair (p : ℚ × Nat × Nat) :
    List (ℚ × Nat × Nat) → List (ℚ × Nat × Nat)
  | [] => [p]
  | q :: rest => if p.1 < q.1 then p :: q :: rest else q :: insertPair p rest

/-- Model of `pairs.sort` on distance (src/Old_code/tracker.py line 79):
sort the triples ascending by distance. -/
def sortPairs : List (ℚ × Nat × Nat) → List (ℚ × Nat × Nat)
  | [] => []
  | p :: rest => insertPair p (sortPairs rest)

/-- The greedy scan of `_greedy_assignment` (src/Old_code/tracker.py lines
84-96): walk the sorted triples, skip any whose detection index or previous
id is already claimed, and accept a pair only when its distance is within
the adaptive gate. `asg` accumulates the `assignments` dict in insertion
order; `aC`/`aP` are `assigned_curr`/`assigned_prev`. -/
def greedyGo (dets : List TDet) :
    List (ℚ × Nat × Nat) → List (Nat × Nat) → List Nat → List Nat →
    List (Nat × Nat)
  | [], asg, _, _ => asg
  | (d, i, fid) :: rest, asg, aC, aP =>
    if i ∈ aC ∨ fid ∈ aP then greedyGo dets rest asg aC aP
    else
      match dets.get? i with
      | none => greedyGo dets rest asg aC aP
      | some det =>
        if d ≤ matchThreshold det then
          greedyGo dets rest (asg ++ [(i, fid)]) (i :: aC) (fid :: aP)
        else greedyGo dets rest asg aC aP

/-- Model of `FaceTracker._greedy_assignment(curr_detections, pairs)`
(src/Old_code/tracker.py lines 69-98): sort the distance triples, then run
the greedy one-to-one scan with empty claimed sets. The distances in
`pairs` are whatever Euclidean values `_compute_distances` produced; every
theorem below quantifies over them. -/
def greedy_assignment (dets : List TDet) (pairs : List (ℚ × Nat × Nat)) :
    List (Nat × Nat) :=
  greedyGo dets (sortPairs pairs) [] [] []

/-! ### The audio actuator (src/audio_player.py) -/

/-- Calls `manage` can issue on the underlying VLC player. -/
inductive AudioAction where
  | play
  | stop
deriving DecidableEq

/-- The `AudioPlayer` configuration visible to `manage`: the `enabled` flag
(a usable audio path and VLC instance) and the constructor's
`restart_threshold` (src/audio_player.py lines 14-17). -/
structure AudioPlayer where
  enabled : Bool
  restart_threshold : ℚ
deriving DecidableEq

/-- Model of `AudioPlayer.manage(num_tracked)` (src/audio_player.py lines 93-112).
`playing` is what `is_playing()` reports and `rem` what `time_remaining()`
returns; the method reads both, starts playback iff people are present
while not playing, and otherwise does nothing (in particular it never calls
`stop()` and never reads `restart_threshold`). -/
def AudioPlayer.manage (a : AudioPlayer) (playing : Bool) (rem : Option ℚ)
    (num_tracked : Nat) : List AudioAction :=
  if a.enabled = false then []
  else if 0 < num_tracked ∧ playing = false then [AudioAction.play]
  else []

/-- The action trace of a sequence of `manage` calls, each observing the
player state `(playing, rem)` and the current tracked count. -/
def manageRun (a : AudioPlayer) :
    List (Bool × Option ℚ × Nat) → List AudioAction
  | [] => []
  | o :: rest => a.manage o.1 o.2.1 o.2.2 ++ manageRun a rest


/-! ### General lemmas about the embedded operations -/

theorem bestMatch_snd (e : List ℚ) :
    ∀ (db : List (Nat × List ℚ)) (acc : Option Nat × ℚ),
      (db.foldl
        (fun acc p => if cosine e p.2 > acc.2 then (some p.1, cosine e p.2) else acc)
        acc).2
      = db.foldl (fun a p => max a (cosine e p.2)) acc.2 := by
  intro db
  induction db with
  | nil => intro acc; rfl
  | cons p rest ih =>
    intro acc
    simp only [List.foldl_cons]
    by_cases h : cosine e p.2 > acc.2
    · rw [if_pos h, ih]
      congr 1
      exact (max_eq_right h.le).symm
    · rw [if_neg h, ih]
      congr 1
      exact (max_eq_left (not_lt.mp h)).symm

theorem bestMatch_achieves (e : List ℚ) :
    ∀ (db : List (Nat × List ℚ)) (acc : Option Nat × ℚ),
      (db.foldl
        (fun acc p => if cosine e p.2 > acc.2 then (some p.1, cosine e p.2) else acc)
        acc)
      = acc
      ∨ ∃ p ∈ db,
          (db.foldl
            (fun acc p => if cosine e p.2 > acc.2 then (some p.1, cosine e p.2) else acc)
            acc)
          = (some p.1, cosine e p.2) := by
  intro db
  induction db with
  | nil => intro acc; exact Or.inl rfl
  | cons p rest ih =>
    intro acc
    simp only [List.foldl_cons]
    by_cases h : cosine e p.2 > acc.2
    · rw [if_pos h]
      rcases ih (some p.1, cosine e p.2) with h1 | ⟨q, hq, h2⟩
      · exact Or.inr ⟨p, List.mem_cons_self p rest, h1⟩
      · exact Or.inr ⟨q, List.mem_cons_of_mem p hq, h2⟩
    · rw [if_neg h]
      rcases ih acc with h1 | ⟨q, hq, h2⟩
      · exact Or.inl h1
      · exact Or.inr ⟨q, List.mem_cons_of_mem p hq, h2⟩

theorem simsMax_nonneg (e : List ℚ) (db : List (Nat × List ℚ)) :
    0 ≤ simsMax e db := by
  have h : ∀ (l : List (Nat × List ℚ)) (a : ℚ),
      a ≤ l.foldl (fun acc p => max acc (cosine e p.2)) a := by
    intro l
    induction l with
    | nil => intro a; exact le_refl a
    | cons p rest ih =>
      intro a
      exact le_trans (le_max_left a (cosine e p.2)) (ih _)
  exact h db 0

theorem setA_cons_pos {α : Type} (pk : Nat) (pv : α) (rest : List (Nat × α))
    (k : Nat) (v : α) (h : pk = k) :
    setA ((pk, pv) :: rest) k v = (k, v) :: rest := by
  simp [setA, h]

theorem setA_cons_neg {α : Type} (pk : Nat) (pv : α) (rest : List (Nat × α))
    (k : Nat) (v : α) (h : ¬ pk = k) :
    setA ((pk, pv) :: rest) k v = (pk, pv) :: setA rest k v := by
  simp [setA, h]

theorem lookupA_cons_pos {α : Type} (pk : Nat) (pv : α) (rest : List (Nat × α))
    (k : Nat) (h : pk = k) : lookupA ((pk, pv) :: rest) k = some pv := by
  simp [lookupA, h]

theorem lookupA_cons_neg {α : Type} (pk : Nat) (pv : α) (rest : List (Nat × α))
    (k : Nat) (h : ¬ pk = k) : lookupA ((pk, pv) :: rest) k = lookupA rest k := by
  simp [lookupA, h]

theorem lookupA_setA_self {α : Type} (l : List (Nat × α)) (k : Nat) (v : α) :
    lookupA (setA l k v) k = some v := by
  induction l with
  | nil => simp [setA, lookupA]
  | cons p rest ih =>
    obtain ⟨pk, pv⟩ := p
    by_cases h : pk = k
    · rw [setA_cons_pos pk pv rest k v h, lookupA_cons_pos k v rest k rfl]
    · rw [setA_cons_neg pk pv rest k v h, lookupA_cons_neg pk pv _ k h]
      exact ih

theorem lookupA_setA_ne {α : Type} (l : List (Nat × α)) (k k' : Nat) (v : α)
    (h : k' ≠ k) : lookupA (setA l k v) k' = lookupA l k' := by
  have hk : ¬ (k = k') := fun hh => h hh.symm
  induction l with
  | nil => simp [setA, lookupA, hk]
  | cons p rest ih =>
    obtain ⟨pk, pv⟩ := p
    by_cases hp : pk = k
    · rw [setA_cons_pos pk pv rest k v hp, lookupA_cons_neg k v rest k' hk,
        lookupA_cons_neg pk pv rest k' (hp ▸ hk)]
    · rw [setA_cons_neg pk pv rest k v hp]
      by_cases hpk : pk = k'
      · rw [lookupA_cons_pos pk pv _ k' hpk, lookupA_cons_pos pk pv rest k' hpk]
      · rw [lookupA_cons_neg pk pv _ k' hpk, lookupA_cons_neg pk pv rest k' hpk]
        exact ih

theorem mem_keysA_setA {α : Type} (l : List (Nat × α)) (k k' : Nat) (v : α) :
    k' ∈ keysA (setA l k v) ↔ k' = k ∨ k' ∈ keysA l := by
  induction l with
  | nil => simp [setA, keysA]
  | cons p rest ih =>
    obtain ⟨pk, pv⟩ := p
    by_cases hp : pk = k
    · rw [setA_cons_pos pk pv rest k v hp]
      subst hp
      simp only [keysA, List.map_cons, List.mem_cons]
      tauto
    · rw [setA_cons_neg pk pv rest k v hp]
      simp only [keysA, List.map_cons, List.mem_cons] at ih ⊢
      tauto

theorem nodup_keysA_setA {α : Type} (l : List (Nat × α)) (k : Nat) (v : α)
    (h : (keysA l).Nodup) : (keysA (setA l k v)).Nodup := by
  induction l with
  | nil => simp [setA, keysA]
  | cons p rest ih =>
    obtain ⟨pk, pv⟩ := p
    simp only [keysA, List.map_cons, List.nodup_cons] at h
    by_cases hp : pk = k
    · rw [setA_cons_pos pk pv rest k v hp]
      subst hp
      simpa [keysA, List.nodup_cons] using h
    · rw [setA_cons_neg pk pv rest k v hp]
      simp only [keysA, List.map_cons, List.nodup_cons]
      refine ⟨?_, ih h.2⟩
      intro hmem
      rcases (mem_keysA_setA rest k pk v).mp hmem with h1 | h1
      · exact hp h1
      · exact h.1 h1

theorem mem_setA {α : Type} (l : List (Nat × α)) (k : Nat) (v : α)
    (p : Nat × α) (hp : p ∈ setA l k v) : p = (k, v) ∨ p ∈ l := by
  induction l with
  | nil => simpa [setA] using hp
  | cons q rest ih =>
    obtain ⟨qk, qv⟩ := q
    by_cases hq : qk = k
    · rw [setA_cons_pos qk qv rest k v hq] at hp
      rcases List.mem_cons.mp hp with h | h
      · exact Or.inl h
      · exact Or.inr (List.mem_cons_of_mem _ h)
    · rw [setA_cons_neg qk qv rest k v hq] at hp
      rcases List.mem_cons.mp hp with h | h
      · exact Or.inr (h ▸ List.mem_cons_self _ rest)
      · rcases ih h with h1 | h1
        · exact Or.inl h1
        · exact Or.inr (List.mem_cons_of_mem _ h1)

theorem lookupA_some_mem {α : Type} (l : List (Nat × α)) (k : Nat) (v : α)
    (h : lookupA l k = some v) : (k, v) ∈ l := by
  induction l with
  | nil => simp [lookupA] at h
  | cons p rest ih =>
    obtain ⟨pk, pv⟩ := p
    by_cases hp : pk = k
    · rw [lookupA_cons_pos pk pv rest k hp] at h
      have hv : pv = v := by injection h
      subst hp hv
      exact List.mem_cons_self _ rest
    · rw [lookupA_cons_neg pk pv rest k hp] at h
      exact List.mem_cons_of_mem _ (ih h)

theorem mem_lookupA_of_nodup {α : Type} (l : List (Nat × α)) (k : Nat) (v : α)
    (hnd : (keysA l).Nodup) (h : (k, v) ∈ l) : lookupA l k = some v := by
  induction l with
  | nil => simp at h
  | cons p rest ih =>
    obtain ⟨pk, pv⟩ := p
    simp only [keysA, List.map_cons, List.nodup_cons] at hnd
    rcases List.mem_cons.mp h with h1 | h1
    · rw [show pk = k from congrArg Prod.fst h1.symm]
      rw [lookupA_cons_pos k pv rest k rfl]
      exact congrArg some (congrArg Prod.snd h1.symm)
    · have hpk : ¬ pk = k := by
        intro hk
        subst hk
        exact hnd.1 (List.mem_map_of_mem Prod.fst h1)
      rw [lookupA_cons_neg pk pv rest k hpk]
      exact ih hnd.2 h1

theorem lookupA_none_of_not_mem_keys {α : Type} (l : List (Nat × α)) (k : Nat)
    (h : k ∉ keysA l) : lookupA l k = none := by
  induction l with
  | nil => rfl
  | cons p rest ih =>
    obtain ⟨pk, pv⟩ := p
    simp only [keysA, List.map_cons, List.mem_cons] at h
    push_neg at h
    rw [lookupA_cons_neg pk pv rest k (fun hh => h.1 hh.symm)]
    exact ih (by simpa [keysA] using h.2)

theorem lookupA_isSome_iff {α : Type} (l : List (Nat × α)) (k : Nat) :
    (∃ v, lookupA l k = some v) ↔ k ∈ keysA l := by
  induction l with
  | nil => simp [lookupA, keysA]
  | cons p rest ih =>
    obtain ⟨pk, pv⟩ := p
    by_cases hp : pk = k
    · subst hp
      simp [lookupA_cons_pos pk pv rest pk rfl, keysA]
    · rw [lookupA_cons_neg pk pv rest k hp]
      simp only [keysA, List.map_cons, List.mem_cons] at ih ⊢
      constructor
      · intro hv
        exact Or.inr (ih.mp hv)
      · rintro (h | h)
        · exact absurd h.symm hp
        · exact ih.mpr h

theorem lookupA_filter_of_keep {α : Type} (l : List (Nat × α)) (k : Nat) (v : α)
    (p : Nat × α → Bool) (hnd : (keysA l).Nodup)
    (h : lookupA l k = some v) (hkeep : p (k, v) = true) :
    lookupA (l.filter p) k = some v := by
  induction l with
  | nil => simp [lookupA] at h
  | cons q rest ih =>
    obtain ⟨qk, qv⟩ := q
    simp only [keysA, List.map_cons, List.nodup_cons] at hnd
    by_cases hq : qk = k
    · rw [lookupA_cons_pos qk qv rest k hq] at h
      have hv : qv = v := by injection h
      subst hq hv
      rw [List.filter_cons, if_pos hkeep]
      exact lookupA_cons_pos qk qv _ qk rfl
    · rw [lookupA_cons_neg qk qv rest k hq] at h
      rw [List.filter_cons]
      by_cases hpq : p (qk, qv) = true
      · rw [if_pos hpq, lookupA_cons_neg qk qv _ k hq]
        exact ih hnd.2 h
      · rw [if_neg hpq]
        exact ih hnd.2 h

theorem lookupA_filter_of_drop {α : Type} (l : List (Nat × α)) (k : Nat) (v : α)
    (p : Nat × α → Bool) (hnd : (keysA l).Nodup)
    (h : lookupA l k = some v) (hdrop : p (k, v) = false) :
    lookupA (l.filter p) k = none := by
  induction l with
  | nil => simp [lookupA] at h
  | cons q rest ih =>
    obtain ⟨qk, qv⟩ := q
    simp only [keysA, List.map_cons, List.nodup_cons] at hnd
    by_cases hq : qk = k
    · rw [lookupA_cons_pos qk qv rest k hq] at h
      have hv : qv = v := by injection h
      subst hq hv
      rw [List.filter_cons, hdrop]
      simp only [Bool.false_eq_true, if_false]
      apply lookupA_none_of_not_mem_keys
      intro hm
      have hsub : (rest.filter p).Sublist rest := List.filter_sublist rest
      exact hnd.1 ((hsub.map Prod.fst).subset hm)
    · rw [lookupA_cons_neg qk qv rest k hq] at h
      rw [List.filter_cons]
      by_cases hpq : p (qk, qv) = true
      · rw [if_pos hpq, lookupA_cons_neg qk qv _ k hq]
        exact ih hnd.2 h
      · rw [if_neg hpq]
        exact ih hnd.2 h

theorem nodup_keysA_filter {α : Type} (l : List (Nat × α)) (p : Nat × α → Bool)
    (hnd : (keysA l).Nodup) : (keysA (l.filter p)).Nodup := by
  have hsub : (l.filter p).Sublist l := List.filter_sublist l
  exact List.Nodup.sublist (List.Sublist.map Prod.fst hsub) hnd

theorem mem_updateA {α : Type} (upd : List (Nat × α)) :
    ∀ (base : List (Nat × α)) (p : Nat × α),
      p ∈ updateA base upd → p ∈ base ∨ p ∈ upd := by
  induction upd with
  | nil => intro base p hp; exact Or.inl hp
  | cons q rest ih =>
    intro base p hp
    simp only [updateA, List.foldl_cons] at hp
    rcases ih (setA base q.1 q.2) p hp with h | h
    · rcases mem_setA base q.1 q.2 p h with h1 | h1
      · refine Or.inr ?_
        rw [h1]
        exact List.mem_cons_self _ rest
      · exact Or.inl h1
    · exact Or.inr (List.mem_cons_of_mem q h)

theorem mem_keysA_updateA {α : Type} (upd : List (Nat × α)) :
    ∀ (base : List (Nat × α)) (k : Nat),
      k ∈ keysA (updateA base upd) ↔ k ∈ keysA base ∨ k ∈ keysA upd := by
  induction upd with
  | nil => intro base k; simp [updateA, keysA]
  | cons q rest ih =>
    intro base k
    simp only [updateA, List.foldl_cons]
    rw [show (List.foldl (fun acc p => setA acc p.1 p.2) (setA base q.1 q.2) rest)
        = updateA (setA base q.1 q.2) rest from rfl, ih]
    rw [mem_keysA_setA]
    simp only [keysA, List.map_cons, List.mem_cons]
    tauto

theorem nodup_keysA_updateA {α : Type} (upd : List (Nat × α)) :
    ∀ (base : List (Nat × α)), (keysA base).Nodup →
      (keysA (updateA base upd)).Nodup := by
  induction upd with
  | nil => intro base h; exact h
  | cons q rest ih =>
    intro base h
    exact ih (setA base q.1 q.2) (nodup_keysA_setA base q.1 q.2 h)

theorem lookupA_updateA_of_not_mem {α : Type} (upd : List (Nat × α)) :
    ∀ (base : List (Nat × α)) (k : Nat), k ∉ keysA upd →
      lookupA (updateA base upd) k = lookupA base k := by
  induction upd with
  | nil => intro base k _; rfl
  | cons q rest ih =>
    intro base k hk
    simp only [keysA, List.map_cons, List.mem_cons] at hk
    push_neg at hk
    simp only [updateA, List.foldl_cons]
    rw [show (List.foldl (fun acc p => setA acc p.1 p.2) (setA base q.1 q.2) rest)
        = updateA (setA base q.1 q.2) rest from rfl]
    rw [ih (setA base q.1 q.2) k (by simpa [keysA] using hk.2)]
    exact lookupA_setA_ne base q.1 k q.2 hk.1

theorem lookupA_updateA_of_mem {α : Type} (upd : List (Nat × α)) :
    ∀ (base : List (Nat × α)) (k : Nat) (v : α),
      (keysA upd).Nodup → lookupA upd k = some v →
      lookupA (updateA base upd) k = some v := by
  induction upd with
  | nil => intro base k v _ h; simp [lookupA] at h
  | cons q rest ih =>
    intro base k v hnd h
    obtain ⟨qk, qv⟩ := q
    simp only [keysA, List.map_cons, List.nodup_cons] at hnd
    simp only [updateA, List.foldl_cons]
    rw [show (List.foldl (fun acc p => setA acc p.1 p.2)
          (setA base (qk, qv).1 (qk, qv).2) rest)
        = updateA (setA base qk qv) rest from rfl]
    by_cases hq : qk = k
    · rw [lookupA_cons_pos qk qv rest k hq] at h
      have hkr : k ∉ keysA rest := by
        intro hm
        exact hnd.1 (hq ▸ hm)
      rw [lookupA_updateA_of_not_mem rest (setA base qk qv) k hkr, hq,
        lookupA_setA_self]
      exact h
    · rw [lookupA_cons_neg qk qv rest k hq] at h
      exact ih (setA base qk qv) k v hnd.2 h

theorem mem_insertPair (p a : ℚ × Nat × Nat) :
    ∀ (l : List (ℚ × Nat × Nat)), a ∈ insertPair p l ↔ a = p ∨ a ∈ l := by
  intro l
  induction l with
  | nil => simp [insertPair]
  | cons q rest ih =>
    by_cases h : p.1 < q.1
    · simp [insertPair, h]
    · simp only [insertPair, if_neg h, List.mem_cons, ih]
      tauto

theorem mem_sortPairs (a : ℚ × Nat × Nat) :
    ∀ (l : List (ℚ × Nat × Nat)), a ∈ sortPairs l ↔ a ∈ l := by
  intro l
  induction l with
  | nil => simp [sortPairs]
  | cons p rest ih =>
    simp only [sortPairs, mem_insertPair, List.mem_cons, ih]

theorem greedyGo_spec (dets : List TDet) :
    ∀ (ps : List (ℚ × Nat × Nat)) (asg : List (Nat × Nat)) (aC aP : List Nat),
      (∀ a ∈ asg, a.1 ∈ aC ∧ a.2 ∈ aP) →
      List.Pairwise (fun a b => a.1 ≠ b.1 ∧ a.2 ≠ b.2) asg →
      List.Pairwise (fun a b => a.1 ≠ b.1 ∧ a.2 ≠ b.2)
        (greedyGo dets ps asg aC aP) ∧
      (∀ a ∈ greedyGo dets ps asg aC aP,
        a ∈ asg ∨
        ∃ det dd, dets.get? a.1 = some det ∧ (dd, a.1, a.2) ∈ ps ∧
          dd ≤ matchThreshold det) := by
  intro ps
  induction ps with
  | nil =>
    intro asg aC aP _ hpw
    exact ⟨hpw, fun a ha => Or.inl ha⟩
  | cons t rest ih =>
    intro asg aC aP hin hpw
    obtain ⟨d, i, fid⟩ := t
    simp only [greedyGo]
    by_cases hcl : i ∈ aC ∨ fid ∈ aP
    · rw [if_pos hcl]
      rcases ih asg aC aP hin hpw with ⟨h1, h2⟩
      refine ⟨h1, fun a ha => ?_⟩
      rcases h2 a ha with h | ⟨det, dd, hd1, hd2, hd3⟩
      · exact Or.inl h
      · exact Or.inr ⟨det, dd, hd1, List.mem_cons_of_mem _ hd2, hd3⟩
    · rw [if_neg hcl]
      push_neg at hcl
      cases hget : dets.get? i with
      | none =>
        rcases ih asg aC aP hin hpw with ⟨h1, h2⟩
        refine ⟨h1, fun a ha => ?_⟩
        rcases h2 a ha with h | ⟨det, dd, hd1, hd2, hd3⟩
        · exact Or.inl h
        · exact Or.inr ⟨det, dd, hd1, List.mem_cons_of_mem _ hd2, hd3⟩
      | some det =>
        dsimp only
        by_cases hdist : d ≤ matchThreshold det
        · rw [if_pos hdist]
          have hin' : ∀ a ∈ asg ++ [(i, fid)], a.1 ∈ i :: aC ∧ a.2 ∈ fid :: aP := by
            intro a ha
            rcases List.mem_append.mp ha with h | h
            · exact ⟨List.mem_cons_of_mem _ (hin a h).1,
                List.mem_cons_of_mem _ (hin a h).2⟩
            · simp only [List.mem_singleton] at h
              subst h
              exact ⟨List.mem_cons_self _ _, List.mem_cons_self _ _⟩
          have hpw' : List.Pairwise (fun a b => a.1 ≠ b.1 ∧ a.2 ≠ b.2)
              (asg ++ [(i, fid)]) := by
            rw [List.pairwise_append]
            refine ⟨hpw, List.pairwise_singleton _ _, ?_⟩
            intro a ha b hb
            simp only [List.mem_singleton] at hb
            subst hb
            exact ⟨fun hc => hcl.1 ((show a.1 = i from hc) ▸ (hin a ha).1),
              fun hc => hcl.2 ((show a.2 = fid from hc) ▸ (hin a ha).2)⟩
          rcases ih (asg ++ [(i, fid)]) (i :: aC) (fid :: aP) hin' hpw'
            with ⟨h1, h2⟩
          refine ⟨h1, fun a ha => ?_⟩
          rcases h2 a ha with h | ⟨det2, dd, hd1, hd2, hd3⟩
          · rcases List.mem_append.mp h with h | h
            · exact Or.inl h
            · simp only [List.mem_singleton] at h
              subst h
              exact Or.inr ⟨det, d, hget, List.mem_cons_self _ _, hdist⟩
          · exact Or.inr ⟨det2, dd, hd1, List.mem_cons_of_mem _ hd2, hd3⟩
        · rw [if_neg hdist]
          rcases ih asg aC aP hin hpw with ⟨h1, h2⟩
          refine ⟨h1, fun a ha => ?_⟩
          rcases h2 a ha with h | ⟨det2, dd, hd1, hd2, hd3⟩
          · exact Or.inl h
          · exact Or.inr ⟨det2, dd, hd1, List.mem_cons_of_mem _ hd2, hd3⟩

/-- C7: for every input to a single `update()` call, the greedy assignment
built from the distance-sorted `(distance, detectionIndex, entityIndex)`
triples is one-to-one — no previous trackId is used by two detections and
no detection maps to two entities — and a pair is accepted only when its
distance is at most `max(50, 0.6 * max(detectionWidth, detectionHeight))`.
The distances are universally quantified, so the statement covers the
Euclidean values `_compute_distances` produces. -/
theorem greedy_assignment_one_to_one (dets : List TDet)
    (pairs : List (ℚ × Nat × Nat)) :
    List.Pairwise (fun a b => a.1 ≠ b.1 ∧ a.2 ≠ b.2)
      (greedy_assignment dets pairs) ∧
    ∀ a ∈ greedy_assignment dets pairs,
      ∃ det dd, dets.get? a.1 = some det ∧ (dd, a.1, a.2) ∈ pairs ∧
        dd ≤ matchThreshold det := by
  have h := greedyGo_spec dets (sortPairs pairs) [] [] []
    (by intro a ha; simp at ha) List.Pairwise.nil
  refine ⟨h.1, fun a ha => ?_⟩
  rcases h.2 a ha with hm | ⟨det, dd, h1, h2, h3⟩
  · simp at hm
  · exact ⟨det, dd, h1, (mem_sortPairs _ pairs).mp h2, h3⟩

/-- C5 counterexample: an input with zero mouth/eye y-delta (all landmark
y-coordinates equal, so `mouth_mid_y - eye_mid_y = 0`) is degenerate
geometry, yet the classifier returns frontal = true for it (yaw 0, pitch 0)
— refuting the part of the claim that says every degenerate-geometry input
is classified non-frontal. -/
theorem degenerate_input_classified_frontal :
    is_facing_camera ⟨0, 0⟩ ⟨4, 0⟩ ⟨2, 0⟩ ⟨0, 0⟩ ⟨4, 0⟩ = true ∧
    ((⟨0, 0⟩ : Pt).y + (⟨4, 0⟩ : Pt).y) / 2
      - ((⟨0, 0⟩ : Pt).y + (⟨4, 0⟩ : Pt).y) / 2 = 0 := by
  constructor
  · norm_num [is_facing_camera, absQ]
  · norm_num

/-- C5 (amended): the classifier is a pure function of the five landmarks
returning true iff `yawRatio < 0.25` and `pitchRatio < 0.7`, with the yaw
ratio treated as 1 when the eye distance is 0 (so every zero-eye-distance
input is non-frontal); the zero mouth/eye y-delta case does not raise (the
pitch denominator is guarded by `+ 1e-6`) but is classified by the same
ratio test and can come out frontal. -/
theorem is_facing_camera_spec (le re nose lm rm : Pt) :
    (is_facing_camera le re nose lm rm = true ↔
      yawRatio le re nose < 1/4 ∧ pitchRatio le re nose lm rm < 7/10) ∧
    (absQ (le.x - re.x) = 0 → is_facing_camera le re nose lm rm = false) := by
  constructor
  · simp only [is_facing_camera, yawRatio, pitchRatio, decide_eq_true_eq]
  · intro h
    simp only [is_facing_camera, h, gt_iff_lt, lt_self_iff_false, if_false,
      decide_eq_false_iff_not, not_and]
    intro h1
    norm_num at h1

/-- C5 witness: the amended theorem applied to a concrete frontal input and
to a concrete zero-eye-distance input. -/
theorem is_facing_camera_spec_witness :
    (is_facing_camera ⟨0, 10⟩ ⟨4, 10⟩ ⟨2, 13⟩ ⟨0, 16⟩ ⟨4, 16⟩ = true ↔
      yawRatio ⟨0, 10⟩ ⟨4, 10⟩ ⟨2, 13⟩ < 1/4 ∧
      pitchRatio ⟨0, 10⟩ ⟨4, 10⟩ ⟨2, 13⟩ ⟨0, 16⟩ ⟨4, 16⟩ < 7/10) ∧
    is_facing_camera ⟨1, 0⟩ ⟨1, 0⟩ ⟨1, 5⟩ ⟨0, 9⟩ ⟨2, 9⟩ = false :=
  ⟨(is_facing_camera_spec ⟨0, 10⟩ ⟨4, 10⟩ ⟨2, 13⟩ ⟨0, 16⟩ ⟨4, 16⟩).1,
   (is_facing_camera_spec ⟨1, 0⟩ ⟨1, 0⟩ ⟨1, 5⟩ ⟨0, 9⟩ ⟨2, 9⟩).2 (by norm_num [absQ])⟩

theorem bestMatch_eq_simsMax (e : List ℚ) (db : List (Nat × List ℚ)) :
    (bestMatch e db).2 = simsMax e db :=
  bestMatch_snd e db (none, 0)

theorem get_id_reachable_next_id (m : FaceMemory)
    (h : FaceMemory.Reachable m) : m.next_id = m.db.length + 1 := by
  induction h with
  | init t => rfl
  | step m e _ ih =>
    unfold FaceMemory.get_id
    by_cases hc : m.thresh < (bestMatch e m.db).2
    · simpa [if_pos hc] using ih
    · simp [if_neg hc, ih]

/-- C6: `getId(embedding)` returns a stored id of maximum cosine similarity
whenever that maximum exceeds the 0.45 threshold, leaving memory unchanged;
otherwise it mints `next_id`, stores the embedding as that id's reference
and bumps the counter (a miss is not an error); and on an empty (reachable)
memory it always returns id 1. `simsMax` is the scan's maximum similarity
(floored at the scan's initial 0, which is below the threshold, so the
floor never changes which branch is taken). -/
theorem get_id_spec (m : FaceMemory) (e : List ℚ) (ht : m.thresh = 45/100) :
    (45/100 < simsMax e m.db →
      (m.get_id e).2 = m ∧
      ∃ v, ((m.get_id e).1, v) ∈ m.db ∧ cosine e v = simsMax e m.db) ∧
    (simsMax e m.db ≤ 45/100 →
      (m.get_id e).1 = m.next_id ∧
      (m.get_id e).2 = ⟨m.db ++ [(m.next_id, e)], m.next_id + 1, m.thresh⟩) ∧
    (FaceMemory.Reachable m → m.db = [] → (m.get_id e).1 = 1) := by
  have hbs : (bestMatch e m.db).2 = simsMax e m.db := bestMatch_eq_simsMax e m.db
  have hmint : simsMax e m.db ≤ 45/100 →
      (m.get_id e).1 = m.next_id ∧
      (m.get_id e).2 = ⟨m.db ++ [(m.next_id, e)], m.next_id + 1, m.thresh⟩ := by
    intro hle
    have hcond : ¬ m.thresh < (bestMatch e m.db).2 := by
      rw [hbs, ht]
      exact not_lt.mpr hle
    constructor
    · simp [FaceMemory.get_id, if_neg hcond]
    · simp [FaceMemory.get_id, if_neg hcond]
  refine ⟨?_, hmint, ?_⟩
  · intro hgt
    have hcond : m.thresh < (bestMatch e m.db).2 := by
      rw [hbs, ht]
      exact hgt
    rcases bestMatch_achieves e m.db (none, 0) with hnone |
      ⟨p, hp, heq⟩
    · exfalso
      have h0 : (bestMatch e m.db).2 = 0 := by
        rw [show bestMatch e m.db
            = m.db.foldl (fun acc p =>
                if cosine e p.2 > acc.2 then (some p.1, cosine e p.2) else acc)
              (none, 0) from rfl, hnone]
      rw [h0] at hbs
      rw [← hbs] at hgt
      norm_num at hgt
    · have hb : bestMatch e m.db = (some p.1, cosine e p.2) := heq
      refine ⟨by simp [FaceMemory.get_id, if_pos hcond], p.2, ?_, ?_⟩
      · have h1 : (m.get_id e).1 = (bestMatch e m.db).1.getD 0 := by
          simp [FaceMemory.get_id, if_pos hcond]
        rw [h1, hb]
        exact hp
      · rw [← hbs, hb]
  · intro hr hdb
    have hnext := get_id_reachable_next_id m hr
    rw [hdb] at hnext
    simp only [List.length_nil, Nat.zero_add] at hnext
    have hle : simsMax e m.db ≤ 45/100 := by
      rw [hdb]
      norm_num [simsMax]
    rw [(hmint hle).1, hnext]

/-- C6 witness: a fresh memory (reachable, empty) yields id 1. -/
theorem get_id_spec_witness :
    ((FaceMemory.init (45/100)).get_id [1, 0]).1 = 1 :=
  (get_id_spec (FaceMemory.init (45/100)) [1, 0] rfl).2.2
    (FaceMemory.Reachable.init (45/100)) rfl

/-- C9: over any sequence of `manage(activeCount)` calls, `manage` calls
`play()` iff the tracked count is positive while the (enabled) player
reports not playing; `manage` never calls `stop()`; and neither the
configured `restartThreshold` nor the `time_remaining()` reading affects
what `manage` does. -/
theorem manage_spec (en : Bool) (rt rt2 : ℚ) (playing : Bool)
    (rem rem2 : Option ℚ) (n : Nat) (obs : List (Bool × Option ℚ × Nat)) :
    (en = true →
      (AudioAction.play ∈ AudioPlayer.manage ⟨en, rt⟩ playing rem n ↔
        0 < n ∧ playing = false)) ∧
    AudioAction.stop ∉ manageRun ⟨en, rt⟩ obs ∧
    manageRun ⟨en, rt⟩ obs = manageRun ⟨en, rt2⟩ obs ∧
    AudioPlayer.manage ⟨en, rt⟩ playing rem n
      = AudioPlayer.manage ⟨en, rt2⟩ playing rem2 n := by
  refine ⟨?_, ?_, ?_, rfl⟩
  · intro he
    subst he
    constructor
    · intro hmem
      by_cases hc : 0 < n ∧ playing = false
      · exact hc
      · simp [AudioPlayer.manage, hc] at hmem
    · intro hc
      simp [AudioPlayer.manage, hc]
  · induction obs with
    | nil => simp [manageRun]
    | cons o rest ih =>
      simp only [manageRun, List.mem_append]
      rintro (h | h)
      · unfold AudioPlayer.manage at h
        split_ifs at h <;> simp_all
      · exact ih h
  · induction obs with
    | nil => rfl
    | cons o rest ih =>
      unfold manageRun
      rw [ih]
      rfl

/-- C9 witness: with an enabled player, one person present and playback
reported stopped, `manage` issues `play()`. -/
theorem manage_spec_witness :
    AudioAction.play ∈ AudioPlayer.manage ⟨true, 2⟩ false none 3 ↔
      0 < 3 ∧ false = false :=
  (manage_spec true 2 2 false none none 3 []).1 rfl

/-- C1 counterexample: accumulated attention for id 1 observed in the
all-time summary / final report (`mergedReport`) is 3 seconds after frame 3
of `reidFrames`, but only 1/2 second after the full run: when the evicted
id is re-identified on frame 10, its fresh zeroed active entry shadows the
history record in the merge, so per-id attention at this observation point
decreased — refuting monotonic non-decrease of attentionTime at every
observation point. The run's `dt`s equal the successive `curr_time`
differences, so it is a trace `main` itself can produce. -/
theorem attention_not_monotone_in_report :
    lookupA (mergedAfter (reidFrames.take 4)) 1 = some ⟨3, 3, 0, 3, 4⟩ ∧
    lookupA (mergedAfter reidFrames) 1
      = some ⟨1/2, 1/2, 15/2, 15/2, 17/2⟩ ∧
    (1/2 : ℚ) < 3 := by
  refine ⟨?_, ?_, by norm_num⟩ <;>
  norm_num [mergedAfter, mergedReport, runModel, processFrame, processDets,
    processDet, resolveId, cleanup_stale, staleP, STALE_FACE_TIMEOUT,
    FaceMemory.get_id, bestMatch, cosine, is_facing_camera, absQ, setA,
    lookupA, updateA, keysA, initState, FaceMemory.init, detFrontal,
    reidFrames]

/-- C2 counterexample: on frame 1 of `nonFrontalFrames` (with `dt = 1`) the
tracked person is detected but the detection is non-frontal; the claim
says the matched entity still accrues `totalTime += dt` (just not
attention), yet the code skips the detection before tracking, so entity 1
keeps `total_time = 0` (and every other field) unchanged. -/
theorem non_frontal_detection_accrues_nothing :
    is_facing_camera (detNonFrontal [1, 0]).le (detNonFrontal [1, 0]).re
      (detNonFrontal [1, 0]).nose (detNonFrontal [1, 0]).lm
      (detNonFrontal [1, 0]).rm = false ∧
    lookupA (trackingAfter nonFrontalFrames) 1 = some ⟨0, 0, 0, 0, 1⟩ := by
  constructor <;>
  norm_num [trackingAfter, runModel, processFrame, processDets, processDet,
    resolveId, cleanup_stale, staleP, STALE_FACE_TIMEOUT, FaceMemory.get_id,
    bestMatch, cosine, is_facing_camera, absQ, setA, lookupA, updateA, keysA,
    initState, FaceMemory.init, detFrontal, detNonFrontal, nonFrontalFrames]

/-- C3 counterexample: after `reidFrames`, id 1 is simultaneously a key of
the active-tracking table and of the History table (evicted on frame 2,
re-identified on frame 10), so the two id sets are not disjoint. -/
theorem active_and_history_share_id :
    1 ∈ keysA (trackingAfter reidFrames) ∧
    1 ∈ keysA (historyAfter reidFrames) := by
  constructor <;>
  norm_num [trackingAfter, historyAfter, runModel, processFrame,
    processDets, processDet, resolveId, cleanup_stale, staleP,
    STALE_FACE_TIMEOUT, FaceMemory.get_id, bestMatch, cosine,
    is_facing_camera, absQ, setA, lookupA, updateA, keysA, initState,
    FaceMemory.init, detFrontal, reidFrames]

/-- C4 failing inputs, evaluated on the code. `twoPersonFrames`: on frame 0
(a re-identification frame) two people get ids 1 and 2; on frame 1 (not a
re-identification frame) both qualifying detections are assigned the
stale Python variable `fid = 2` — the id of the *last* detection resolved
on frame 0 — so entity 1's detection is credited to entity 2 (entity 1
stays at zero, entity 2 receives `dt` twice). `lateFirstFaceFrames`: the
first qualifying detection arrives on frame 1, before any resolution has
run, and reading the unassigned `fid` raises `NameError`. -/
theorem stale_fid_misassignment :
    lookupA (trackingAfter twoPersonFrames) 1 = some ⟨0, 0, 0, 0, 1⟩ ∧
    lookupA (trackingAfter twoPersonFrames) 2 = some ⟨2, 2, 0, 1, 2⟩ ∧
    runFails lateFirstFaceFrames = true := by
  refine ⟨?_, ?_, ?_⟩ <;>
  norm_num [trackingAfter, runFails, runModel, processFrame, processDets,
    processDet, resolveId, cleanup_stale, staleP, STALE_FACE_TIMEOUT,
    FaceMemory.get_id, bestMatch, cosine, is_facing_camera, absQ, setA,
    lookupA, updateA, keysA, initState, FaceMemory.init, detFrontal,
    twoPersonFrames, lateFirstFaceFrames]

theorem processDet_spec (fc : Nat) (ct el dt : ℚ) (st : LoopState) (d : Det)
    (hdt : 0 ≤ dt) (hinv : StInv st) :
    StInv (processDet fc ct el dt st d) ∧
    (processDet fc ct el dt st d).face_history = st.face_history ∧
    ∀ k, lookupA (processDet fc ct el dt st d).face_tracking k
        = lookupA st.face_tracking k ∨
      ∃ e', lookupA (processDet fc ct el dt st d).face_tracking k = some e' ∧
        e'.last_seen = ct ∧
        ∀ e, lookupA st.face_tracking k = some e →
          e.attention_time ≤ e'.attention_time ∧
          e.total_time ≤ e'.total_time := by
  obtain ⟨hnt, hnh, het, heh⟩ := hinv
  unfold processDet
  by_cases h1 : st.name_error
  · rw [if_pos h1]
    exact ⟨⟨hnt, hnh, het, heh⟩, rfl, fun k => Or.inl rfl⟩
  · rw [if_neg h1]
    by_cases h2 : is_facing_camera d.le d.re d.nose d.lm d.rm = false
    · rw [if_pos h2]
      exact ⟨⟨hnt, hnh, het, heh⟩, rfl, fun k => Or.inl rfl⟩
    · rw [if_neg h2]
      by_cases h3 : d.crop_ok = false
      · rw [if_pos h3]
        exact ⟨⟨hnt, hnh, het, heh⟩, rfl, fun k => Or.inl rfl⟩
      · rw [if_neg h3]
        cases hres : (resolveId fc st d).1 with
        | none =>
          exact ⟨⟨hnt, hnh, het, heh⟩, rfl, fun k => Or.inl rfl⟩
        | some fid =>
          dsimp only
          cases hl : lookupA st.face_tracking fid with
          | none =>
            simp only [hl, Option.getD_none]
            refine ⟨⟨nodup_keysA_setA _ _ _ hnt, hnh, ?_, heh⟩, by trivial, ?_⟩
            · intro p hp
              rcases mem_setA _ _ _ p hp with h | h
              · rw [h]
              · exact het p h
            · intro k
              by_cases hk : k = fid
              · subst hk
                refine Or.inr ⟨_, lookupA_setA_self _ _ _, rfl, ?_⟩
                intro e he
                rw [hl] at he
                exact absurd he (by simp)
              · exact Or.inl (lookupA_setA_ne _ _ _ _ hk)
          | some e =>
            simp only [hl, Option.getD_some]
            have hmem : (fid, e) ∈ st.face_tracking := lookupA_some_mem _ _ _ hl
            have hee : e.attention_time ≤ e.total_time := het (fid, e) hmem
            refine ⟨⟨nodup_keysA_setA _ _ _ hnt, hnh, ?_, heh⟩, by trivial, ?_⟩
            · intro p hp
              rcases mem_setA _ _ _ p hp with h | h
              · rw [h]
                exact add_le_add_right hee dt
              · exact het p h
            · intro k
              by_cases hk : k = fid
              · subst hk
                refine Or.inr ⟨_, lookupA_setA_self _ _ _, rfl, ?_⟩
                intro e2 he2
                rw [hl] at he2
                injection he2 with hh
                subst hh
                exact ⟨le_add_of_nonneg_right hdt, le_add_of_nonneg_right hdt⟩
              · exact Or.inl (lookupA_setA_ne _ _ _ _ hk)

theorem processDets_spec (fc : Nat) (ct el dt : ℚ) (dets : List Det)
    (hdt : 0 ≤ dt) :
    ∀ (st : LoopState), StInv st →
    StInv (processDets fc ct el dt st dets) ∧
    (processDets fc ct el dt st dets).face_history = st.face_history ∧
    ∀ k, lookupA (processDets fc ct el dt st dets).face_tracking k
        = lookupA st.face_tracking k ∨
      ∃ e', lookupA (processDets fc ct el dt st dets).face_tracking k = some e' ∧
        e'.last_seen = ct ∧
        ∀ e, lookupA st.face_tracking k = some e →
          e.attention_time ≤ e'.attention_time ∧
          e.total_time ≤ e'.total_time := by
  induction dets with
  | nil =>
    intro st hinv
    exact ⟨hinv, rfl, fun k => Or.inl rfl⟩
  | cons d rest ih =>
    intro st hinv
    have hstep := processDet_spec fc ct el dt st d hdt hinv
    have hrest := ih (processDet fc ct el dt st d) hstep.1
    have hfold : processDets fc ct el dt st (d :: rest)
        = processDets fc ct el dt (processDet fc ct el dt st d) rest := by
      simp [processDets]
    rw [hfold]
    refine ⟨hrest.1, hrest.2.1.trans hstep.2.1, ?_⟩
    intro k
    rcases hrest.2.2 k with hA | ⟨e', hA1, hA2, hA3⟩
    · rcases hstep.2.2 k with hB | ⟨e', hB1, hB2, hB3⟩
      · exact Or.inl (hA.trans hB)
      · exact Or.inr ⟨e', hA.trans hB1, hB2, hB3⟩
    · rcases hstep.2.2 k with hB | ⟨e'', hB1, hB2, hB3⟩
      · refine Or.inr ⟨e', hA1, hA2, ?_⟩
        intro e he
        exact hA3 e (hB.symm ▸ he)
      · refine Or.inr ⟨e', hA1, hA2, ?_⟩
        intro e he
        have h1 := hB3 e he
        have h2 := hA3 e'' hB1
        exact ⟨h1.1.trans h2.1, h1.2.trans h2.2⟩

theorem cleanup_spec (ct : ℚ) (st : LoopState) (hinv : StInv st) :
    StInv (cleanup_stale ct st) ∧
    (∀ k e, lookupA (cleanup_stale ct st).face_tracking k = some e →
      lookupA st.face_tracking k = some e) ∧
    (∀ k e, lookupA st.face_tracking k = some e →
      (staleP ct (k, e) = false ∧
        lookupA (cleanup_stale ct st).face_tracking k = some e) ∨
      (staleP ct (k, e) = true ∧
        lookupA (cleanup_stale ct st).face_tracking k = none ∧
        lookupA (cleanup_stale ct st).face_history k = some e)) ∧
    (∀ k, k ∈ keysA (cleanup_stale ct st).face_history ↔
      k ∈ keysA st.face_history ∨
      k ∈ keysA (st.face_tracking.filter (staleP ct))) := by
  obtain ⟨hnt, hnh, het, heh⟩ := hinv
  have hkeep : ∀ k (e : Entity), lookupA st.face_tracking k = some e →
      staleP ct (k, e) = false →
      lookupA (cleanup_stale ct st).face_tracking k = some e := by
    intro k e he hs
    exact lookupA_filter_of_keep _ _ _ _ hnt he (by simp [hs])
  refine ⟨⟨?_, ?_, ?_, ?_⟩, ?_, ?_, ?_⟩
  · exact nodup_keysA_filter _ _ hnt
  · exact nodup_keysA_updateA _ _ hnh
  · intro p hp
    exact het p (List.mem_of_mem_filter hp)
  · intro p hp
    rcases mem_updateA _ _ p hp with h | h
    · exact heh p h
    · exact het p (List.mem_of_mem_filter h)
  · intro k e he
    exact lookupA_some_mem _ _ _ he |> fun hm =>
      mem_lookupA_of_nodup _ _ _ hnt (List.mem_of_mem_filter hm)
  · intro k e he
    by_cases hs : staleP ct (k, e) = true
    · refine Or.inr ⟨hs, ?_, ?_⟩
      · exact lookupA_filter_of_drop _ _ _ _ hnt he (by simp [hs])
      · exact lookupA_updateA_of_mem _ _ _ _
          (nodup_keysA_filter _ _ hnt)
          (lookupA_filter_of_keep _ _ _ _ hnt he hs)
    · have hs' : staleP ct (k, e) = false := by
        cases h : staleP ct (k, e)
        · rfl
        · exact absurd h hs
      exact Or.inl ⟨hs', hkeep k e he hs'⟩
  · intro k
    exact mem_keysA_updateA _ _ k

theorem mergedReport_le (s : LoopState) (hs : StInv s) :
    ∀ p ∈ mergedReport s, p.2.attention_time ≤ p.2.total_time := by
  intro p hp
  rcases mem_updateA _ _ p hp with h | h
  · rcases mem_updateA _ _ p h with h2 | h2
    · simp at h2
    · exact hs.2.2.2 p h2
  · exact hs.2.2.1 p h

/-- C1 (amended): for every update with a non-negative `dt` from a
well-formed state, `attentionTime ≤ totalTime` holds for every entity in
the active table, the History table and the merged final report, and the
attention/total counters of any id that stays in the active table never
decrease. (The per-id value observed in the all-time summary can still
drop when an evicted id is re-identified — see the counterexample.) -/
theorem attention_invariant (ct el dt : ℚ) (dets : List Det) (st : LoopState)
    (hdt : 0 ≤ dt) (hinv : StInv st) :
    StInv (processFrame ct el dt dets st) ∧
    (∀ p ∈ mergedReport (processFrame ct el dt dets st),
      p.2.attention_time ≤ p.2.total_time) ∧
    (∀ k e e', lookupA st.face_tracking k = some e →
      lookupA (processFrame ct el dt dets st).face_tracking k = some e' →
      e.attention_time ≤ e'.attention_time ∧
      e.total_time ≤ e'.total_time) := by
  have hD := processDets_spec st.frame_count ct el dt dets hdt st hinv
  unfold processFrame
  by_cases hne : (processDets st.frame_count ct el dt st dets).name_error
  · rw [if_pos hne]
    refine ⟨hD.1, mergedReport_le _ hD.1, ?_⟩
    intro k e e' he he'
    rcases hD.2.2 k with hA | ⟨e2, h1, _, h3⟩
    · rw [hA, he] at he'
      injection he' with hh
      subst hh
      exact ⟨le_refl _, le_refl _⟩
    · rw [h1] at he'
      injection he' with hh
      subst hh
      exact h3 e he
  · rw [if_neg hne]
    have hC := cleanup_spec ct _ hD.1
    refine ⟨hC.1, mergedReport_le _ hC.1, ?_⟩
    intro k e e' he he'
    have hm := hC.2.1 k e' he'
    rcases hD.2.2 k with hA | ⟨e2, h1, _, h3⟩
    · rw [hA, he] at hm
      injection hm with hh
      subst hh
      exact ⟨le_refl _, le_refl _⟩
    · rw [h1] at hm
      injection hm with hh
      subst hh
      exact h3 e he

/-- C1 witness: the invariant theorem applied to an empty frame from the
initial state. -/
theorem attention_invariant_witness :
    StInv (processFrame 1 0 0 [] initState) ∧
    (∀ p ∈ mergedReport (processFrame 1 0 0 [] initState),
      p.2.attention_time ≤ p.2.total_time) ∧
    (∀ k e e', lookupA initState.face_tracking k = some e →
      lookupA (processFrame 1 0 0 [] initState).face_tracking k = some e' →
      e.attention_time ≤ e'.attention_time ∧
      e.total_time ≤ e'.total_time) :=
  attention_invariant 1 0 0 [] initState (le_refl 0)
    (by refine ⟨?_, ?_, ?_, ?_⟩ <;> simp [initState, keysA])

/-- C3 (amended): across one update, the union of the id sets of the two
tables never loses an id (eviction only moves ids from active to History),
and any id new to the union enters through the active table; id sets of
the two tables need NOT be disjoint — an evicted id that is re-identified
re-enters the active table while its History record stays (see the
counterexample). -/
theorem keys_union_conservation (ct el dt : ℚ) (dets : List Det)
    (st : LoopState) (hdt : 0 ≤ dt) (hinv : StInv st) :
    (∀ k, k ∈ keysA st.face_tracking ∨ k ∈ keysA st.face_history →
      k ∈ keysA (processFrame ct el dt dets st).face_tracking ∨
      k ∈ keysA (processFrame ct el dt dets st).face_history) ∧
    (∀ k, k ∈ keysA (processFrame ct el dt dets st).face_tracking ∨
        k ∈ keysA (processFrame ct el dt dets st).face_history →
      (k ∈ keysA st.face_tracking ∨ k ∈ keysA st.face_history) ∨
      k ∈ keysA (processFrame ct el dt dets st).face_tracking) := by
  have hD := processDets_spec st.frame_count ct el dt dets hdt st hinv
  have htr1 : ∀ k, k ∈ keysA st.face_tracking →
      ∃ e, lookupA (processDets st.frame_count ct el dt st dets).face_tracking k
        = some e := by
    intro k hk
    rcases (lookupA_isSome_iff _ _).mpr hk with ⟨e, he⟩
    rcases hD.2.2 k with hA | ⟨e2, h1, _, _⟩
    · exact ⟨e, hA.trans he⟩
    · exact ⟨e2, h1⟩
  unfold processFrame
  by_cases hne : (processDets st.frame_count ct el dt st dets).name_error
  · rw [if_pos hne]
    constructor
    · intro k hk
      rcases hk with hk | hk
      · exact Or.inl ((lookupA_isSome_iff _ _).mp (htr1 k hk))
      · rw [hD.2.1]
        exact Or.inr hk
    · intro k hk
      rcases hk with hk | hk
      · exact Or.inr hk
      · rw [hD.2.1] at hk
        exact Or.inl (Or.inr hk)
  · rw [if_neg hne]
    have hC := cleanup_spec ct _ hD.1
    constructor
    · intro k hk
      rcases hk with hk | hk
      · rcases htr1 k hk with ⟨e, he⟩
        rcases hC.2.2.1 k e he with ⟨_, hkeep⟩ | ⟨_, _, hhist⟩
        · exact Or.inl ((lookupA_isSome_iff _ _).mp ⟨e, hkeep⟩)
        · exact Or.inr ((lookupA_isSome_iff _ _).mp ⟨e, hhist⟩)
      · refine Or.inr ((hC.2.2.2 k).mpr (Or.inl ?_))
        rw [hD.2.1]
        exact hk
    · intro k hk
      rcases hk with hk | hk
      · exact Or.inr hk
      · rcases (hC.2.2.2 k).mp hk with h | h
        · rw [hD.2.1] at h
          exact Or.inl (Or.inr h)
        · rcases (lookupA_isSome_iff _ _).mpr h with ⟨e, he⟩
          have hmem := lookupA_some_mem _ _ _ he
          rw [List.mem_filter] at hmem
          have hlook : lookupA
              (processDets st.frame_count ct el dt st dets).face_tracking k
              = some e :=
            mem_lookupA_of_nodup _ _ _ hD.1.1 hmem.1
          rcases hD.2.2 k with hA | ⟨e2, h1, h2, _⟩
          · rw [hA] at hlook
            exact Or.inl (Or.inl ((lookupA_isSome_iff _ _).mp ⟨e, hlook⟩))
          · exfalso
            rw [h1] at hlook
            injection hlook with hh
            subst hh
            have hstale := hmem.2
            rw [staleP, h2] at hstale
            simp only [sub_self, STALE_FACE_TIMEOUT, decide_eq_true_eq] at hstale
            norm_num at hstale

/-- C3 witness: the conservation theorem applied to an empty frame from
the initial state. -/
theorem keys_union_conservation_witness :
    (∀ k, k ∈ keysA initState.face_tracking ∨
        k ∈ keysA initState.face_history →
      k ∈ keysA (processFrame 1 0 0 [] initState).face_tracking ∨
      k ∈ keysA (processFrame 1 0 0 [] initState).face_history) ∧
    (∀ k, k ∈ keysA (processFrame 1 0 0 [] initState).face_tracking ∨
        k ∈ keysA (processFrame 1 0 0 [] initState).face_history →
      (k ∈ keysA initState.face_tracking ∨
        k ∈ keysA initState.face_history) ∨
      k ∈ keysA (processFrame 1 0 0 [] initState).face_tracking) :=
  keys_union_conservation 1 0 0 [] initState (le_refl 0)
    (by refine ⟨?_, ?_, ?_, ?_⟩ <;> simp [initState, keysA])

/-- C2 (amended): in the SCRFD pipeline a non-frontal detection is dropped
before any tracking code runs, so its entity accrues neither totalTime nor
attentionTime; for every entity referenced by a qualifying detection
(frontal classifier true, nonempty crop, id resolved) the tracker sets
`last_seen := now` and `end_time := elapsed` and adds `dt` to BOTH
`total_time` and `attention_time` (there is no per-detection attention
condition and no stored centroid in this pipeline). -/
theorem det_update_spec (fc : Nat) (ct el dt : ℚ) (st : LoopState) (d : Det)
    (fid : Nat) (e : Entity) :
    (is_facing_camera d.le d.re d.nose d.lm d.rm = false →
      processDet fc ct el dt st d = st) ∧
    (st.name_error = false →
      is_facing_camera d.le d.re d.nose d.lm d.rm = true →
      d.crop_ok = true →
      (resolveId fc st d).1 = some fid →
      lookupA st.face_tracking fid = some e →
      lookupA (processDet fc ct el dt st d).face_tracking fid
        = some ⟨e.attention_time + dt, e.total_time + dt,
            e.start_time, el, ct⟩ ∧
      (processDet fc ct el dt st d).face_history = st.face_history) := by
  constructor
  · intro hnf
    unfold processDet
    by_cases h1 : st.name_error
    · rw [if_pos h1]
    · rw [if_neg h1, if_pos hnf]
  · intro hne hfront hcrop hres hl
    have hpd : processDet fc ct el dt st d
        = { st with
            mem := (resolveId fc st d).2
            fid := some fid
            face_tracking :=
              setA st.face_tracking fid
                ⟨e.attention_time + dt, e.total_time + dt,
                 e.start_time, el, ct⟩ } := by
      unfold processDet
      rw [if_neg (by simp [hne]), if_neg (by simp [hfront]),
        if_neg (by simp [hcrop]), hres]
      simp only [hl, Option.getD_some]
    rw [hpd]
    exact ⟨lookupA_setA_self _ _ _, rfl⟩

/-- C2 witness: the qualifying-detection update applied to a concrete
one-entity state on a non-re-identification frame. -/
theorem det_update_spec_witness :
    lookupA (processDet 1 2 1 1 c2WitState (detFrontal [1, 0])).face_tracking 1
      = some ⟨(0:ℚ) + 1, (0:ℚ) + 1, 0, 1, 2⟩ ∧
    (processDet 1 2 1 1 c2WitState (detFrontal [1, 0])).face_history
      = c2WitState.face_history :=
  (det_update_spec 1 2 1 1 c2WitState (detFrontal [1, 0]) 1
      ⟨0, 0, 0, 0, 1⟩).2 rfl
    (by norm_num [is_facing_camera, absQ, detFrontal]) rfl rfl rfl

/-- C8: an active entity with `lastSeen = t0` survives an update at
`now = t0 + staleTimeout - eps1` (for `eps1 ≥ 0`, untouched, all fields
intact) and at `now = t0 + staleTimeout + eps2` (for `eps2 > 0`) it is
removed from the active set and moved verbatim — the very same record —
into History. -/
theorem stale_boundary (st : LoopState) (fid : Nat) (e : Entity)
    (el dt eps1 eps2 : ℚ) (hinv : StInv st) (hne : st.name_error = false)
    (hmem : lookupA st.face_tracking fid = some e)
    (h1 : 0 ≤ eps1) (h2 : 0 < eps2) :
    lookupA (processFrame (e.last_seen + STALE_FACE_TIMEOUT - eps1) el dt []
        st).face_tracking fid = some e ∧
    lookupA (processFrame (e.last_seen + STALE_FACE_TIMEOUT + eps2) el dt []
        st).face_tracking fid = none ∧
    lookupA (processFrame (e.last_seen + STALE_FACE_TIMEOUT + eps2) el dt []
        st).face_history fid = some e := by
  have hempty : ∀ ct : ℚ, processFrame ct el dt [] st
      = { cleanup_stale ct st with frame_count := st.frame_count + 1 } := by
    intro ct
    unfold processFrame
    rw [show processDets st.frame_count ct el dt st [] = st from rfl,
      if_neg (by simp [hne])]
  have hsurv : staleP (e.last_seen + STALE_FACE_TIMEOUT - eps1) (fid, e)
      = false := by
    simp only [staleP, decide_eq_false_iff_not, not_lt]
    linarith
  have hevict : staleP (e.last_seen + STALE_FACE_TIMEOUT + eps2) (fid, e)
      = true := by
    simp only [staleP, decide_eq_true_eq]
    linarith
  refine ⟨?_, ?_, ?_⟩
  · rw [hempty]
    exact lookupA_filter_of_keep _ _ _ _ hinv.1 hmem (by simp [hsurv])
  · rw [hempty]
    exact lookupA_filter_of_drop _ _ _ _ hinv.1 hmem (by simp [hevict])
  · rw [hempty]
    exact lookupA_updateA_of_mem _ _ _ _
      (nodup_keysA_filter _ _ hinv.1)
      (lookupA_filter_of_keep _ _ _ _ hinv.1 hmem hevict)

/-- C8 witness: the boundary theorem applied to a concrete one-entity
state with `lastSeen = 5` and `eps1 = eps2 = 1`. -/
theorem stale_boundary_witness :
    lookupA (processFrame ((⟨0, 0, 0, 0, 5⟩ : Entity).last_seen
        + STALE_FACE_TIMEOUT - 1) 0 0 [] c8WitState).face_tracking 1
      = some ⟨0, 0, 0, 0, 5⟩ ∧
    lookupA (processFrame ((⟨0, 0, 0, 0, 5⟩ : Entity).last_seen
        + STALE_FACE_TIMEOUT + 1) 0 0 [] c8WitState).face_tracking 1
      = none ∧
    lookupA (processFrame ((⟨0, 0, 0, 0, 5⟩ : Entity).last_seen
        + STALE_FACE_TIMEOUT + 1) 0 0 [] c8WitState).face_history 1
      = some ⟨0, 0, 0, 0, 5⟩ :=
  stale_boundary c8WitState 1 ⟨0, 0, 0, 0, 5⟩ 0 0 1 1
    (by refine ⟨?_, ?_, ?_, ?_⟩ <;> simp [c8WitState, keysA, FaceMemory.init])
    rfl rfl (by norm_num) (by norm_num)

/-- C10: in the SCRFD pipeline, when an id that sits in History (with some
record `h`) and is absent from the active table is re-identified on a
re-identification frame, a fresh active entry is created with zeroed
counters (holding `0 + dt` after the same-frame accrual — independent of
`h`), and the merged report built history-first/active-second yields that
fresh entry for the id: the earlier visit's counters in `h` do not reach
the report. -/
theorem reid_fresh_entry_shadows_history (st : LoopState) (fid : Nat)
    (h : Entity) (d : Det) (ct el dt : ℚ)
    (hinv : StInv st) (hne : st.name_error = false)
    (hhist : lookupA st.face_history fid = some h)
    (hact : lookupA st.face_tracking fid = none)
    (hcad : st.frame_count % 10 = 0)
    (hfront : is_facing_camera d.le d.re d.nose d.lm d.rm = true)
    (hcrop : d.crop_ok = true)
    (hres : (st.mem.get_id d.emb).1 = fid) :
    lookupA (processFrame ct el dt [d] st).face_tracking fid
      = some ⟨0 + dt, 0 + dt, el, el, ct⟩ ∧
    lookupA (mergedReport (processFrame ct el dt [d] st)) fid
      = some ⟨0 + dt, 0 + dt, el, el, ct⟩ := by
  have hresolve : (resolveId st.frame_count st d).1 = some fid := by
    rw [resolveId, if_pos hcad]
    simp [hres]
  have hpd : processDet st.frame_count ct el dt st d
      = { st with
          mem := (resolveId st.frame_count st d).2
          fid := some fid
          face_tracking :=
            setA st.face_tracking fid ⟨0 + dt, 0 + dt, el, el, ct⟩ } := by
    unfold processDet
    rw [if_neg (by simp [hne]), if_neg (by simp [hfront]),
      if_neg (by simp [hcrop]), hresolve]
    simp only [hact, Option.getD_none]
  have hfold : processDets st.frame_count ct el dt st [d]
      = processDet st.frame_count ct el dt st d := by
    simp [processDets]
  have hframe : processFrame ct el dt [d] st
      = { cleanup_stale ct (processDet st.frame_count ct el dt st d) with
          frame_count := st.frame_count + 1 } := by
    unfold processFrame
    rw [hfold, hpd, if_neg (by simp [hne])]
  have hnodup1 : (keysA (setA st.face_tracking fid
      ⟨0 + dt, 0 + dt, el, el, ct⟩)).Nodup :=
    nodup_keysA_setA _ _ _ hinv.1
  have hstale : ∀ e' : Entity, e'.last_seen = ct →
      staleP ct (fid, e') = false := by
    intro e' hls
    simp only [staleP, STALE_FACE_TIMEOUT, hls, sub_self,
      decide_eq_false_iff_not]
    norm_num
  have hmid : lookupA (setA st.face_tracking fid
      ⟨0 + dt, 0 + dt, el, el, ct⟩) fid
      = some ⟨0 + dt, 0 + dt, el, el, ct⟩ :=
    lookupA_setA_self _ _ _
  have hkeep : lookupA (cleanup_stale ct
      (processDet st.frame_count ct el dt st d)).face_tracking fid
      = some ⟨0 + dt, 0 + dt, el, el, ct⟩ := by
    rw [hpd]
    exact lookupA_filter_of_keep _ _ _ _ hnodup1 hmid
      (by simp only [Bool.not_eq_true']; exact hstale _ rfl)
  have hnodupfinal : (keysA (cleanup_stale ct
      (processDet st.frame_count ct el dt st d)).face_tracking).Nodup := by
    rw [hpd]
    exact nodup_keysA_filter _ _ hnodup1
  constructor
  · rw [hframe]
    exact hkeep
  · rw [hframe]
    exact lookupA_updateA_of_mem _ _ _ _ hnodupfinal hkeep

/-- C10 witness: the re-identification theorem applied to `c10WitState`
(id 1 evicted with 2s/3s counters, memory holding its embedding) and a
frontal detection on frame 0, at `now = 10`, `elapsed = 9`, `dt = 1`. -/
theorem reid_fresh_entry_shadows_history_witness :
    lookupA (processFrame 10 9 1 [detFrontal [1, 0]]
        c10WitState).face_tracking 1 = some ⟨0 + 1, 0 + 1, 9, 9, 10⟩ ∧
    lookupA (mergedReport (processFrame 10 9 1 [detFrontal [1, 0]]
        c10WitState)) 1 = some ⟨0 + 1, 0 + 1, 9, 9, 10⟩ :=
  reid_fresh_entry_shadows_history c10WitState 1 ⟨2, 3, 0, 1, 1⟩
    (detFrontal [1, 0]) 10 9 1
    (by refine ⟨?_, ?_, ?_, ?_⟩ <;> norm_num [c10WitState, keysA])
    rfl rfl rfl rfl
    (by norm_num [is_facing_camera, absQ, detFrontal]) rfl
    (by norm_num [FaceMemory.get_id, bestMatch, cosine, c10WitState])
